import Mathlib

/-!
Shallow embedding of the chunked-upload orchestration and retrying request
executor of the nightfall-go-sdk repository, together with theorems checking
the natural-language specification against it.

Source files embedded: `file.go` (ScanFile, doChunkedUpload) and
`nightfall.go` (do, checkResponse).
-/

namespace NightfallSDK

/-! ## Chunk planner

The upload loop of `doChunkedUpload` (file.go:114) iterates
`for offset := 0; offset < fileUpload.FileSizeBytes; offset += fileUpload.ChunkSize`
and, when the content reader supplies exactly `FileSizeBytes` bytes, each
iteration uploads a chunk of `min chunkSize (totalSize - offset)` bytes at
`offset` (the read buffer has length `chunkSize` and is truncated to the number
of bytes actually read, file.go:125-134).  `chunkPlan` is that sequence of
`(offset, length)` pairs. -/

def chunkPlanAux (totalSize chunkSize offset : Nat) : List (Nat × Nat) :=
  if _h : 0 < chunkSize ∧ offset < totalSize then
    (offset, min chunkSize (totalSize - offset)) ::
      chunkPlanAux totalSize chunkSize (offset + chunkSize)
  else
    []
termination_by totalSize - offset
decreasing_by omega

def chunkPlan (totalSize chunkSize : Nat) : List (Nat × Nat) :=
  chunkPlanAux totalSize chunkSize 0

/-! ## Retrying request executor

Embedding of `Client.do` and `checkResponse` (nightfall.go:125-209).  The
network is an oracle: `resp` maps the attempt number (1-based, as in the Go
loop counter) to the transport outcome of that attempt, and `ctxDone` tells
whether the caller's context is already cancelled at the moment that attempt's
transport call fails (the code consults `ctx.Done()` only in that branch,
nightfall.go:132-137).  JSON encoding/decoding is external, so a response body
is modelled by what the decoder does with it. -/

structure APIError where
  code : Nat
  message : String
  description : String
  additionalData : List (String × String)
  deriving DecidableEq

inductive ErrBody where
  | empty : ErrBody
  | readFails : ErrBody
  | invalidJSON : ErrBody
  | json : APIError → ErrBody
  deriving DecidableEq

inductive SuccBody where
  | decodesOK : SuccBody
  | emptyEOF : SuccBody
  | malformed : SuccBody
  deriving DecidableEq

structure HTTPResponse where
  statusCode : Nat
  errBody : ErrBody
  succBody : SuccBody
  deriving DecidableEq

/-- The structured `Error` that `checkResponse` builds from a non-2xx response
(nightfall.go:195-208): the JSON body when it parses, else an error carrying
just the status code (body read failure, empty body, or unparseable body). -/
def respError (r : HTTPResponse) : APIError :=
  match r.errBody with
  | .readFails => ⟨r.statusCode, "", "", []⟩
  | .empty => ⟨r.statusCode, "", "", []⟩
  | .invalidJSON => ⟨r.statusCode, "", "", []⟩
  | .json e => e

/-- Embeds `checkResponse` (nightfall.go:190-209): 2xx is success; any other
status yields the structured error `respError`. -/
def checkResponse (r : HTTPResponse) : Option APIError :=
  if 200 ≤ r.statusCode ∧ r.statusCode ≤ 299 then
    none
  else
    some (respError r)

inductive TransportResult where
  | failure : Nat → TransportResult
  | response : HTTPResponse → TransportResult
  deriving DecidableEq

inductive DoError where
  | ctxCancelled : DoError
  | transport : Nat → DoError
  | retryable429 : DoError
  | api : APIError → DoError
  | decodeFailed : DoError
  deriving DecidableEq

/-- Embeds the body of one loop iteration of `Client.do` (the inner closure,
nightfall.go:129-162): transport failure consults `ctx.Done()`; a response goes
through `checkResponse`; a 429 on a non-final attempt becomes the retryable
sentinel `errRetryable429`; on success the body is decoded when a return value
was requested, tolerating `io.EOF` (empty body). -/
def doAttempt (retryCount : Nat) (resp : Nat → TransportResult) (ctxDone : Nat → Bool)
    (wantResp : Bool) (attempt : Nat) : Option DoError :=
  match resp attempt with
  | .failure rawErr =>
    if ctxDone attempt then some .ctxCancelled else some (.transport rawErr)
  | .response r =>
    match checkResponse r with
    | some e =>
      if r.statusCode = 429 then
        if retryCount + 1 ≤ attempt then some (.api e) else some .retryable429
      else some (.api e)
    | none =>
      if wantResp then
        match r.succBody with
        | .decodesOK => none
        | .emptyEOF => none
        | .malformed => some .decodeFailed
      else none

/-- Result of a `Client.do` execution: the returned error (if any), the number
of transport attempts made, and the list of backoff sleeps performed, in
milliseconds. -/
structure DoResult where
  result : Option DoError
  attempts : Nat
  sleepsMs : List Nat
  deriving DecidableEq

/-- Accounts for one `time.Sleep(time.Second)` followed by the rest of the
retry loop (nightfall.go:165-168). -/
def afterSleep (r : DoResult) : DoResult :=
  ⟨r.result, r.attempts + 1, 1000 :: r.sleepsMs⟩

/-- Embeds the retry loop of `Client.do` (nightfall.go:128-174), starting at a
given attempt number: while `attempt ≤ retryCount+1`, run one attempt; on `nil`
stop with success; on the retryable-429 sentinel sleep one second and retry;
on any other error return it. -/
def doGo (retryCount : Nat) (resp : Nat → TransportResult) (ctxDone : Nat → Bool)
    (wantResp : Bool) (attempt : Nat) : DoResult :=
  if attempt ≤ retryCount + 1 then
    match doAttempt retryCount resp ctxDone wantResp attempt with
    | none => ⟨none, 1, []⟩
    | some .retryable429 =>
      afterSleep (doGo retryCount resp ctxDone wantResp (attempt + 1))
    | some e => ⟨some e, 1, []⟩
  else
    ⟨none, 0, []⟩
termination_by retryCount + 2 - attempt
decreasing_by omega

/-- Embeds a full `Client.do` execution: the loop starts at attempt 1. -/
def doCall (retryCount : Nat) (resp : Nat → TransportResult) (ctxDone : Nat → Bool)
    (wantResp : Bool) : DoResult :=
  doGo retryCount resp ctxDone wantResp 1

/-! ## ScanFile session sequencing

Embedding of `Client.ScanFile` (file.go:63-88).  The four helper calls
(`initFileUpload`, `doChunkedUpload`, `completeFileUpload`, `scanUploadedFile`)
each boil down to a `Client.do` request against the server, so each is an
oracle; the chunk-upload step sees the session returned by the initiate step,
and the finalize and trigger steps are addressed to the session's id.
`scanFile` additionally returns the list of steps actually invoked, in
invocation order. -/

structure FileUploadResponse where
  id : Nat
  fileSizeBytes : Nat
  chunkSize : Nat
  mimeType : String
  deriving DecidableEq

structure ScanFileResponse where
  id : String
  message : String
  deriving DecidableEq

inductive UploadStep where
  | initiate : UploadStep
  | uploadChunks : UploadStep
  | finalize : UploadStep
  | triggerScan : UploadStep
  deriving DecidableEq

/-- Oracles for the four server interactions performed by `ScanFile`. -/
structure ScanFileEnv where
  initFileUpload : Except DoError FileUploadResponse
  doChunkedUpload : FileUploadResponse → Option DoError
  completeFileUpload : Nat → Option DoError
  scanUploadedFile : Nat → Except DoError ScanFileResponse

/-- Embeds `ScanFile` (file.go:63-88): initiate, upload all chunks, finalize,
trigger processing, returning at the first failing step; also records the
steps invoked. -/
def scanFile (env : ScanFileEnv) :
    Except DoError ScanFileResponse × List UploadStep :=
  match env.initFileUpload with
  | .error e => (.error e, [.initiate])
  | .ok fileUpload =>
    match env.doChunkedUpload fileUpload with
    | some e => (.error e, [.initiate, .uploadChunks])
    | none =>
      match env.completeFileUpload fileUpload.id with
      | some e => (.error e, [.initiate, .uploadChunks, .finalize])
      | none =>
        match env.scanUploadedFile fileUpload.id with
        | .error e => (.error e, [.initiate, .uploadChunks, .finalize, .triggerScan])
        | .ok r => (.ok r, [.initiate, .uploadChunks, .finalize, .triggerScan])

/-! ## Chunked upload orchestrator

Small-step embedding of `doChunkedUpload` (file.go:105-176).  The Go function
runs a dispatch loop (acquire a slot on `concurrencyChan`, check
`uploadCtx.Done()`, read a chunk from the content reader, spawn an upload
goroutine) while upload goroutines complete concurrently (on failure they
try-send their error into the capacity-1 `errChan`, call `cancel()`, and
release their slot).  A state records the main loop's position and the shared
structures; a labelled step relation captures every interleaving of the main
loop with task completions.  Oracles fix what each `content.Read` call returns
and whether each dispatched chunk's upload attempt succeeds. -/

/-- Outcome of one `content.Read(buf)` call: `bytes n` is `(n, nil)`,
`bytesEOF n` is `(n, io.EOF)` (with `bytesEOF 0` a plain end-of-data), and
`readErr e` is a non-EOF read error with opaque identity `e`. -/
inductive ReadResult where
  | bytes : Nat → ReadResult
  | bytesEOF : Nat → ReadResult
  | readErr : Nat → ReadResult
  deriving DecidableEq

/-- Parameters of one `doChunkedUpload` run: the session's sizes, the
configured concurrency, what the k-th `Read` call returns, and whether the
i-th dispatched chunk's upload attempt fails (with an opaque error id). -/
structure OrchParams where
  fileSizeBytes : Nat
  chunkSize : Nat
  fileUploadConcurrency : Nat
  readResult : Nat → ReadResult
  uploadOutcome : Nat → Option Nat

/-- A dispatched chunk-upload goroutine: its dispatch index, the offset it is
addressed to, and the number of payload bytes it carries. -/
structure OrchTask where
  idx : Nat
  offset : Nat
  len : Nat
  deriving DecidableEq

/-- Position of the main loop of `doChunkedUpload`: at the top of the loop
(about to test the loop condition and acquire a slot), holding a slot (about
to run the `select` on `uploadCtx.Done()`), past the cancellation check (about
to read), past the loop at `wg.Wait()`, returned early with a read error
(file.go:130), or returned normally with the received channel value. -/
inductive MainPhase where
  | atTop : MainPhase
  | acquired : MainPhase
  | checked : MainPhase
  | waiting : MainPhase
  | readFailed : Nat → MainPhase
  | done : MainPhase
  deriving DecidableEq

structure OrchState where
  phase : MainPhase
  offset : Nat
  reads : Nat
  dispatched : Nat
  running : List OrchTask
  finished : List OrchTask
  slotsUsed : Nat
  errSlot : Option Nat
  cancelled : Bool
  bytesRead : Nat
  bytesUploaded : Nat
  deriving DecidableEq

inductive OrchLabel where
  | exitLoop : OrchLabel
  | acquire : OrchLabel
  | check : OrchLabel
  | readDispatch : OrchLabel
  | finish : Nat → OrchLabel
  | finalizeWait : OrchLabel
  deriving DecidableEq

/-- One transition of the orchestrator, by label; `none` when the label is not
enabled in the given state.

* `exitLoop`: the loop condition `offset < fileSizeBytes` fails and the main
  loop falls through to `wg.Wait()` (file.go:114,168).
* `acquire`: the loop condition holds and `concurrencyChan <- struct{}{}`
  succeeds, which requires a free slot (file.go:116).
* `check`: the `select` on `uploadCtx.Done()` (file.go:119-123) observes the
  cancelled flag and breaks, or passes.
* `readDispatch`: the `content.Read` call (file.go:126) returns: on `io.EOF`
  the loop breaks (discarding any bytes returned alongside it); on another
  error the function returns it immediately; otherwise the buffer is truncated
  to the bytes read and an upload goroutine for the current offset is spawned
  (file.go:125-165).
* `finish i`: the running goroutine for chunk `i` completes: on failure it
  fills the capacity-1 error channel if it is still empty (otherwise the error
  is discarded, file.go:146-149,158-161) and calls `cancel()`; on success the
  chunk's bytes have been uploaded; either way it releases its slot.
* `finalizeWait`: `wg.Wait()` returns once no goroutine is running, the error
  channel is closed and read, and the function returns (file.go:168-175). -/
def orchStep (p : OrchParams) (s : OrchState) : OrchLabel → Option OrchState
  | .exitLoop =>
    if s.phase = .atTop ∧ p.fileSizeBytes ≤ s.offset then
      some { s with phase := .waiting }
    else none
  | .acquire =>
    if s.phase = .atTop ∧ s.offset < p.fileSizeBytes ∧ s.slotsUsed < p.fileUploadConcurrency then
      some { s with phase := .acquired, slotsUsed := s.slotsUsed + 1 }
    else none
  | .check =>
    if s.phase = .acquired then
      some { s with phase := if s.cancelled then .waiting else .checked }
    else none
  | .readDispatch =>
    if s.phase = .checked then
      match p.readResult s.reads with
      | .bytesEOF n =>
        some { s with phase := .waiting, reads := s.reads + 1,
                      bytesRead := s.bytesRead + min n p.chunkSize }
      | .readErr e =>
        some { s with phase := .readFailed e, reads := s.reads + 1 }
      | .bytes n =>
        some { s with phase := .atTop,
                      reads := s.reads + 1,
                      bytesRead := s.bytesRead + min n p.chunkSize,
                      running := ⟨s.dispatched, s.offset, min n p.chunkSize⟩ :: s.running,
                      dispatched := s.dispatched + 1,
                      offset := s.offset + p.chunkSize }
    else none
  | .finish i =>
    match s.running.find? (fun t => t.idx = i) with
    | none => none
    | some t =>
      some { s with
        running := s.running.eraseP (fun u => u.idx = i),
        finished := t :: s.finished,
        slotsUsed := s.slotsUsed - 1,
        errSlot := match p.uploadOutcome i with
          | some e => (match s.errSlot with | none => some e | some e0 => some e0)
          | none => s.errSlot,
        cancelled := if (p.uploadOutcome i).isSome then true else s.cancelled,
        bytesUploaded :=
          if (p.uploadOutcome i).isSome then s.bytesUploaded else s.bytesUploaded + t.len }
  | .finalizeWait =>
    if s.phase = .waiting ∧ s.running = [] then
      some { s with phase := .done }
    else none

/-- The state in which `doChunkedUpload` begins. -/
def orchInit : OrchState :=
  ⟨.atTop, 0, 0, 0, [], [], 0, none, false, 0, 0⟩

/-- Run a list of labels from a state. -/
def orchRun (p : OrchParams) (s : OrchState) : List OrchLabel → Option OrchState
  | [] => some s
  | l :: ls =>
    match orchStep p s l with
    | none => none
    | some s' => orchRun p s' ls

/-- A state is reachable when some interleaving of the main loop and the task
completions produces it from the initial state. -/
def OrchReachable (p : OrchParams) (s : OrchState) : Prop :=
  ∃ ls, orchRun p orchInit ls = some s

/-- The value `doChunkedUpload` returns in a terminal state: the first recorded
error (or success) after `wg.Wait()`, or the read error on the early-return
path; `none` while the run is still in progress. -/
def orchResult (s : OrchState) : Option (Option Nat) :=
  match s.phase with
  | .done => some s.errSlot
  | .readFailed e => some (some e)
  | _ => none

/-- Slots held by the main loop itself: between acquiring on `concurrencyChan`
and spawning the goroutine, the loop holds one slot not yet owned by a task. -/
def phaseSlack : MainPhase → Nat
  | .acquired => 1
  | .checked => 1
  | _ => 0

/-- Inductive invariant of the orchestrator: slot accounting (used slots never
exceed the budget, and every running task — plus the main loop while between
acquire and dispatch — holds one), task accounting (every dispatched chunk is
running or finished, with index below the dispatch counter), error provenance
(a recorded error is the outcome of some finished task), and `wg.Wait`
discipline (in the `done` phase no task is running). -/
def OrchInv (p : OrchParams) (s : OrchState) : Prop :=
  s.slotsUsed ≤ p.fileUploadConcurrency ∧
  s.running.length + phaseSlack s.phase ≤ s.slotsUsed ∧
  s.running.length + s.finished.length = s.dispatched ∧
  (∀ e, s.errSlot = some e → ∃ t ∈ s.finished, p.uploadOutcome t.idx = some e) ∧
  (∀ t ∈ s.running, t.idx < s.dispatched) ∧
  (∀ t ∈ s.finished, t.idx < s.dispatched) ∧
  (s.phase = .done → s.running = [])

/-- The main loop has stopped dispatching for good: it broke out of the loop,
returned a read error, or already returned. -/
def OrchFrozen (s : OrchState) : Prop :=
  s.phase = .waiting ∨ s.phase = .done ∨ ∃ e, s.phase = .readFailed e

/-- A 10-byte session with 5-byte chunks whose reader delivers one 5-byte
chunk and then reports end-of-data early. -/
def eofParams : OrchParams :=
  ⟨10, 5, 1, fun k => if k = 0 then .bytes 5 else .bytesEOF 0, fun _ => none⟩

/-- A schedule for `eofParams`: dispatch chunk 0, let it finish, then hit the
early end-of-data and return. -/
def eofTrace : List OrchLabel :=
  [.acquire, .check, .readDispatch, .finish 0, .acquire, .check, .readDispatch,
   .finalizeWait]

/-- A 15-byte session with 5-byte chunks and concurrency 2 whose first two
chunk uploads fail (error ids 7 and 9). -/
def failParams : OrchParams :=
  ⟨15, 5, 2, fun _ => .bytes 5, fun i => if i = 0 then some 7 else some 9⟩

/-- A schedule for `failParams`: dispatch chunks 0 and 1, let both fail (7 is
recorded first, 9 is discarded), let the loop detect the cancellation, wait,
and return. -/
def failTrace : List OrchLabel :=
  [.acquire, .check, .readDispatch, .acquire, .check, .readDispatch,
   .finish 0, .finish 1, .acquire, .check, .finalizeWait]

/-- Number of loop iterations of the upload loop: the number of chunks,
`⌈totalSize / chunkSize⌉`. -/
def numChunks (totalSize chunkSize : Nat) : Nat :=
  (totalSize + (chunkSize - 1)) / chunkSize

/-- Oracle returning 429 exactly twice, then 200. -/
def twice429Resp : Nat → TransportResult := fun a =>
  if a ≤ 2 then .response ⟨429, .empty, .decodesOK⟩ else .response ⟨200, .empty, .decodesOK⟩

/-- Oracle returning 429 on every attempt. -/
def always429Resp : Nat → TransportResult := fun _ =>
  .response ⟨429, .empty, .decodesOK⟩

/-- Context that is never cancelled. -/
def neverDone : Nat → Bool := fun _ => false

/-! ## Chunk planner lemmas -/

theorem chunkPlanAux_eq_map (t c : Nat) (hc : 0 < c) (o : Nat) :
    chunkPlanAux t c o =
      (List.range ((t - o + (c - 1)) / c)).map
        (fun i => (o + i * c, min c (t - (o + i * c)))) := by
  rw [chunkPlanAux]
  by_cases h : o < t
  · rw [dif_pos ⟨hc, h⟩]
    rw [chunkPlanAux_eq_map t c hc (o + c)]
    have hn : (t - o + (c - 1)) / c = (t - (o + c) + (c - 1)) / c + 1 := by
      rcases le_or_lt c (t - o) with hcm | hcm
      · have e1 : t - o + (c - 1) = (t - o - 1) + c := by omega
        have e2 : t - (o + c) + (c - 1) = t - o - 1 := by omega
        rw [e1, e2, Nat.add_div_right _ hc]
      · have e1 : t - o + (c - 1) = (t - o - 1) + c := by omega
        have e2 : t - (o + c) + (c - 1) = c - 1 := by omega
        rw [e1, e2, Nat.add_div_right _ hc,
          Nat.div_eq_of_lt (show t - o - 1 < c by omega),
          Nat.div_eq_of_lt (show c - 1 < c by omega)]
    rw [hn, List.range_succ_eq_map, List.map_cons, List.map_map]
    refine List.cons_eq_cons.mpr ⟨by simp, ?_⟩
    refine List.map_congr_left ?_
    intro i _
    have e3 : o + (i + 1) * c = o + c + i * c := by ring
    simp [Function.comp, e3]
  · rw [dif_neg (fun hco => h hco.2)]
    rw [Nat.div_eq_of_lt (show t - o + (c - 1) < c by omega)]
    rfl
termination_by t - o
decreasing_by omega

theorem chunkPlan_eq_map (t c : Nat) (hc : 0 < c) :
    chunkPlan t c =
      (List.range (numChunks t c)).map (fun i => (i * c, min c (t - i * c))) := by
  have h := chunkPlanAux_eq_map t c hc 0
  simpa [chunkPlan, numChunks] using h

theorem lt_numChunks_iff (t c : Nat) (hc : 0 < c) (i : Nat) :
    i < numChunks t c ↔ i * c < t := by
  unfold numChunks
  constructor
  · intro h
    have h2 : i + 1 ≤ (t + (c - 1)) / c := h
    have h3 : (i + 1) * c ≤ t + (c - 1) := (Nat.le_div_iff_mul_le hc).mp h2
    have h4 : (i + 1) * c = i * c + c := by ring
    omega
  · intro h
    have h2 : (i + 1) * c ≤ t + (c - 1) := by
      have h4 : (i + 1) * c = i * c + c := by ring
      omega
    show i + 1 ≤ (t + (c - 1)) / c
    exact (Nat.le_div_iff_mul_le hc).mpr h2

/-- C1: for every `totalSize ≥ 0` and `chunkSize > 0`, the `(offset, length)`
chunk ranges produced for the upload are contiguous, non-overlapping, and cover
exactly `[0, totalSize)`; every emitted length equals `chunkSize` except the
last, which equals `totalSize - offset` when that remainder is smaller; no
zero-length chunk is emitted; and `totalSize = 0` yields zero chunks. -/
theorem chunkPlan_tiling (t c : Nat) (hc : 0 < c) :
    (∀ i (hi : i < (chunkPlan t c).length) (hi1 : i + 1 < (chunkPlan t c).length),
      ((chunkPlan t c).get ⟨i, hi⟩).1 + ((chunkPlan t c).get ⟨i, hi⟩).2
        = ((chunkPlan t c).get ⟨i + 1, hi1⟩).1) ∧
    List.Pairwise (fun a b => a.1 + a.2 ≤ b.1) (chunkPlan t c) ∧
    (∀ pnt, pnt < t ↔ ∃ ch ∈ chunkPlan t c, ch.1 ≤ pnt ∧ pnt < ch.1 + ch.2) ∧
    (∀ i (hi : i < (chunkPlan t c).length), i + 1 < (chunkPlan t c).length →
      ((chunkPlan t c).get ⟨i, hi⟩).2 = c) ∧
    (∀ i (hi : i < (chunkPlan t c).length), i + 1 = (chunkPlan t c).length →
      t - ((chunkPlan t c).get ⟨i, hi⟩).1 < c →
      ((chunkPlan t c).get ⟨i, hi⟩).2 = t - ((chunkPlan t c).get ⟨i, hi⟩).1) ∧
    (∀ ch ∈ chunkPlan t c, 0 < ch.2 ∧ ch.2 ≤ c) ∧
    (t = 0 → chunkPlan t c = []) := by
  have hmap := chunkPlan_eq_map t c hc
  have hlen : (chunkPlan t c).length = numChunks t c := by
    rw [hmap]; simp
  have hget : ∀ i (hi : i < (chunkPlan t c).length),
      (chunkPlan t c).get ⟨i, hi⟩ = (i * c, min c (t - i * c)) := by
    intro i hi
    have hi' : i < numChunks t c := by rw [← hlen]; exact hi
    simp only [List.get_eq_getElem]
    rw [List.getElem_of_eq hmap hi]
    simp
  have hfull : ∀ i, i + 1 < numChunks t c → min c (t - i * c) = c := by
    intro i hi1
    have h1 : (i + 1) * c < t := (lt_numChunks_iff t c hc (i + 1)).mp hi1
    have h2 : (i + 1) * c = i * c + c := by ring
    exact min_eq_left (by omega)
  refine ⟨?_, ?_, ?_, ?_, ?_, ?_, ?_⟩
  · -- contiguous
    intro i hi hi1
    rw [hget i hi, hget (i + 1) hi1]
    have h3 := hfull i (by rw [← hlen]; exact hi1)
    have h2 : (i + 1) * c = i * c + c := by ring
    simp only [h3]
    omega
  · -- non-overlapping
    rw [hmap]
    rw [List.pairwise_map]
    refine (List.pairwise_lt_range _).imp ?_
    intro i j hij
    have h1 : (i + 1) * c ≤ j * c := Nat.mul_le_mul_right c (by omega)
    have h2 : (i + 1) * c = i * c + c := by ring
    have h3 : min c (t - i * c) ≤ c := min_le_left _ _
    simp only []
    omega
  · -- coverage
    intro pnt
    constructor
    · intro hp
      refine ⟨(pnt / c * c, min c (t - pnt / c * c)), ?_, ?_, ?_⟩
      · rw [hmap]
        refine List.mem_map.mpr ⟨pnt / c, List.mem_range.mpr ?_, rfl⟩
        refine (lt_numChunks_iff t c hc _).mpr ?_
        exact lt_of_le_of_lt (Nat.div_mul_le_self pnt c) hp
      · exact Nat.div_mul_le_self pnt c
      · have hdm := Nat.div_add_mod pnt c
        have hml := Nat.mod_lt pnt hc
        have he : c * (pnt / c) = pnt / c * c := by ring
        have h1 : pnt < pnt / c * c + c := by omega
        have h2 : pnt < pnt / c * c + (t - pnt / c * c) := by
          have := Nat.div_mul_le_self pnt c
          omega
        calc pnt < min (pnt / c * c + c) (pnt / c * c + (t - pnt / c * c)) := lt_min h1 h2
        _ = pnt / c * c + min c (t - pnt / c * c) := min_add_add_left _ _ _
    · rintro ⟨ch, hmem, hle, hlt⟩
      rw [hmap] at hmem
      rcases List.mem_map.mp hmem with ⟨i, hir, rfl⟩
      have hin : i * c < t := (lt_numChunks_iff t c hc i).mp (List.mem_range.mp hir)
      have h3 : min c (t - i * c) ≤ t - i * c := min_le_right _ _
      simp only [] at hle hlt
      omega
  · -- all lengths before the last equal chunkSize
    intro i hi hi1
    rw [hget i hi]
    exact hfull i (by rw [← hlen]; exact hi1)
  · -- the last length is the remainder when the remainder is smaller
    intro i hi _ hrem
    rw [hget i hi] at hrem ⊢
    simp only [] at hrem ⊢
    exact min_eq_right (by omega)
  · -- lengths are positive and at most chunkSize
    intro ch hmem
    rw [hmap] at hmem
    rcases List.mem_map.mp hmem with ⟨i, hir, rfl⟩
    have hin : i * c < t := (lt_numChunks_iff t c hc i).mp (List.mem_range.mp hir)
    exact ⟨lt_min hc (by omega), min_le_left _ _⟩
  · -- degenerate case
    intro ht
    subst ht
    rw [hmap]
    have : numChunks 0 c = 0 := by
      unfold numChunks
      exact Nat.div_eq_of_lt (by omega)
    rw [this]
    rfl

/-- Witness for `chunkPlan_tiling` at `totalSize = 15`, `chunkSize = 5`. -/
theorem chunkPlan_tiling_witness :
    0 < 5 ∧
    ((∀ i (hi : i < (chunkPlan 15 5).length) (hi1 : i + 1 < (chunkPlan 15 5).length),
      ((chunkPlan 15 5).get ⟨i, hi⟩).1 + ((chunkPlan 15 5).get ⟨i, hi⟩).2
        = ((chunkPlan 15 5).get ⟨i + 1, hi1⟩).1) ∧
    List.Pairwise (fun a b => a.1 + a.2 ≤ b.1) (chunkPlan 15 5) ∧
    (∀ pnt, pnt < 15 ↔ ∃ ch ∈ chunkPlan 15 5, ch.1 ≤ pnt ∧ pnt < ch.1 + ch.2) ∧
    (∀ i (hi : i < (chunkPlan 15 5).length), i + 1 < (chunkPlan 15 5).length →
      ((chunkPlan 15 5).get ⟨i, hi⟩).2 = 5) ∧
    (∀ i (hi : i < (chunkPlan 15 5).length), i + 1 = (chunkPlan 15 5).length →
      15 - ((chunkPlan 15 5).get ⟨i, hi⟩).1 < 5 →
      ((chunkPlan 15 5).get ⟨i, hi⟩).2 = 15 - ((chunkPlan 15 5).get ⟨i, hi⟩).1) ∧
    (∀ ch ∈ chunkPlan 15 5, 0 < ch.2 ∧ ch.2 ≤ 5) ∧
    (15 = 0 → chunkPlan 15 5 = [])) :=
  ⟨by decide, chunkPlan_tiling 15 5 (by decide)⟩

/-! ## Retrying request executor lemmas -/

theorem checkResponse_non2xx (r : HTTPResponse)
    (h : ¬(200 ≤ r.statusCode ∧ r.statusCode ≤ 299)) :
    checkResponse r = some (respError r) := by
  unfold checkResponse
  rw [if_neg h]

theorem doAttempt_resp429 (rc : Nat) (resp : Nat → TransportResult) (cd : Nat → Bool)
    (w : Bool) (a : Nat) (r : HTTPResponse)
    (hr : resp a = .response r) (h429 : r.statusCode = 429) :
    doAttempt rc resp cd w a =
      if rc + 1 ≤ a then some (.api (respError r)) else some .retryable429 := by
  unfold doAttempt
  rw [hr]
  dsimp only
  rw [checkResponse_non2xx r (by omega)]
  simp [h429]

theorem doAttempt_terminal (rc : Nat) (resp : Nat → TransportResult) (cd : Nat → Bool)
    (w : Bool) (a : Nat) (r : HTTPResponse)
    (hr : resp a = .response r)
    (hnon : ¬(200 ≤ r.statusCode ∧ r.statusCode ≤ 299)) (hne : r.statusCode ≠ 429) :
    doAttempt rc resp cd w a = some (.api (respError r)) := by
  unfold doAttempt
  rw [hr]
  dsimp only
  rw [checkResponse_non2xx r hnon]
  simp [hne]

theorem doAttempt_failure (rc : Nat) (resp : Nat → TransportResult) (cd : Nat → Bool)
    (w : Bool) (a : Nat) (rawErr : Nat) (hr : resp a = .failure rawErr) :
    doAttempt rc resp cd w a =
      some (if cd a then .ctxCancelled else .transport rawErr) := by
  unfold doAttempt
  rw [hr]
  cases hcd : cd a <;> simp [hcd]

theorem doAttempt_retryable_lt (rc : Nat) (resp : Nat → TransportResult) (cd : Nat → Bool)
    (w : Bool) (a : Nat) (h : doAttempt rc resp cd w a = some .retryable429) :
    a < rc + 1 := by
  by_contra hge
  push_neg at hge
  unfold doAttempt at h
  repeat' split at h
  all_goals try omega
  all_goals simp_all

theorem doGo_attempts_le (rc : Nat) (resp : Nat → TransportResult) (cd : Nat → Bool)
    (w : Bool) (a : Nat) : (doGo rc resp cd w a).attempts ≤ rc + 2 - a := by
  rw [doGo]
  by_cases h : a ≤ rc + 1
  · rw [if_pos h]
    rcases hA : doAttempt rc resp cd w a with _ | e
    · simp
      omega
    · have ih := doGo_attempts_le rc resp cd w (a + 1)
      cases e <;> simp [afterSleep] <;> omega
  · rw [if_neg h]
    simp
termination_by rc + 2 - a
decreasing_by omega

theorem doGo_attempts_pos (rc : Nat) (resp : Nat → TransportResult) (cd : Nat → Bool)
    (w : Bool) (a : Nat) (h : a ≤ rc + 1) : 1 ≤ (doGo rc resp cd w a).attempts := by
  rw [doGo, if_pos h]
  rcases hA : doAttempt rc resp cd w a with _ | e
  · simp
  · cases e <;> simp [afterSleep]

theorem doGo_sleeps (rc : Nat) (resp : Nat → TransportResult) (cd : Nat → Bool)
    (w : Bool) (a : Nat) :
    (doGo rc resp cd w a).sleepsMs.length = (doGo rc resp cd w a).attempts - 1 ∧
    ∀ d ∈ (doGo rc resp cd w a).sleepsMs, d = 1000 := by
  rw [doGo]
  by_cases h : a ≤ rc + 1
  · rw [if_pos h]
    rcases hA : doAttempt rc resp cd w a with _ | e
    · simp
    · obtain ⟨ih1, ih2⟩ := doGo_sleeps rc resp cd w (a + 1)
      cases e
      · simp
      · simp
      · have hlt := doAttempt_retryable_lt rc resp cd w a hA
        have hpos := doGo_attempts_pos rc resp cd w (a + 1) (by omega)
        constructor
        · simp only [afterSleep, List.length_cons]
          omega
        · intro d hd
          simp only [afterSleep, List.mem_cons] at hd
          rcases hd with hd | hd
          · exact hd
          · exact ih2 d hd
      · simp
      · simp
  · rw [if_neg h]
    simp
termination_by rc + 2 - a
decreasing_by omega

theorem doGo_all429 (rc : Nat) (resp : Nat → TransportResult) (cd : Nat → Bool)
    (w : Bool) (a : Nat) (ha : a ≤ rc + 1)
    (h : ∀ b, a ≤ b → b ≤ rc + 1 → ∃ r, resp b = .response r ∧ r.statusCode = 429) :
    (doGo rc resp cd w a).attempts = rc + 2 - a ∧
    ∃ r, resp (rc + 1) = .response r ∧
      (doGo rc resp cd w a).result = some (.api (respError r)) := by
  rcases h a le_rfl ha with ⟨r, hr, h429⟩
  rw [doGo, if_pos ha, doAttempt_resp429 rc resp cd w a r hr h429]
  by_cases hfin : rc + 1 ≤ a
  · rw [if_pos hfin]
    have haa : a = rc + 1 := by omega
    subst haa
    exact ⟨by simp <;> omega, r, hr, by simp⟩
  · rw [if_neg hfin]
    have ih := doGo_all429 rc resp cd w (a + 1) (by omega)
      (fun b hb1 hb2 => h b (by omega) hb2)
    rcases ih with ⟨iha, r', hr', ihr⟩
    exact ⟨by simp [afterSleep] <;> omega, r', hr',
      by simp only [afterSleep]; exact ihr⟩
termination_by rc + 2 - a
decreasing_by omega

/-- C2: the transport call is attempted at most `retryCount + 1` times; each
retry is preceded by a fixed 1000 ms backoff sleep (one sleep per extra
attempt); when every attempt yields 429, all `retryCount + 1` attempts occur
and the structured error of the final attempt is returned; a 429-twice-then-200
oracle under the default `retryCount = 5` gives exactly 3 attempts and success,
and an always-429 oracle gives exactly 6 attempts and failure. -/
theorem do_retry_attempt_policy :
    (∀ (rc : Nat) (resp : Nat → TransportResult) (cd : Nat → Bool) (w : Bool),
      1 ≤ (doCall rc resp cd w).attempts ∧ (doCall rc resp cd w).attempts ≤ rc + 1) ∧
    (∀ (rc : Nat) (resp : Nat → TransportResult) (cd : Nat → Bool) (w : Bool),
      (doCall rc resp cd w).sleepsMs.length = (doCall rc resp cd w).attempts - 1 ∧
      ∀ d ∈ (doCall rc resp cd w).sleepsMs, d = 1000) ∧
    (∀ (rc : Nat) (resp : Nat → TransportResult) (cd : Nat → Bool) (w : Bool),
      (∀ b, 1 ≤ b → b ≤ rc + 1 → ∃ r, resp b = .response r ∧ r.statusCode = 429) →
      (doCall rc resp cd w).attempts = rc + 1 ∧
      ∃ r, resp (rc + 1) = .response r ∧
        (doCall rc resp cd w).result = some (.api (respError r))) ∧
    doCall 5 twice429Resp neverDone false = ⟨none, 3, [1000, 1000]⟩ ∧
    doCall 5 always429Resp neverDone false =
      ⟨some (.api ⟨429, "", "", []⟩), 6, [1000, 1000, 1000, 1000, 1000]⟩ := by
  refine ⟨?_, ?_, ?_, ?_, ?_⟩
  · intro rc resp cd w
    refine ⟨doGo_attempts_pos rc resp cd w 1 (by omega), ?_⟩
    have h := doGo_attempts_le rc resp cd w 1
    unfold doCall
    omega
  · intro rc resp cd w
    exact doGo_sleeps rc resp cd w 1
  · intro rc resp cd w h
    have h2 := doGo_all429 rc resp cd w 1 (by omega) h
    unfold doCall
    constructor
    · omega
    · exact h2.2
  · simp [doCall, doGo, doAttempt, afterSleep, twice429Resp, neverDone, checkResponse,
      respError]
  · simp [doCall, doGo, doAttempt, afterSleep, always429Resp, neverDone, checkResponse,
      respError]

/-- Witness for `do_retry_attempt_policy`: its always-429 conjunct applied to
the concrete always-429 oracle at the default retry count. -/
theorem do_retry_attempt_policy_witness :
    (doCall 5 always429Resp neverDone false).attempts = 5 + 1 ∧
    ∃ r, always429Resp (5 + 1) = .response r ∧
      (doCall 5 always429Resp neverDone false).result = some (.api (respError r)) :=
  do_retry_attempt_policy.2.2.1 5 always429Resp neverDone false
    (fun _ _ _ => ⟨⟨429, .empty, .decodesOK⟩, rfl, rfl⟩)

/-- C7: an attempt yielding a status outside 2xx and different from 429 makes
the executor return immediately after that single attempt (no retry, no sleep)
with the structured error parsed from the JSON body; when the body is absent,
empty, or unparseable, the error carries just the response status code. -/
theorem do_terminal_structured_error (rc : Nat) (resp : Nat → TransportResult)
    (cd : Nat → Bool) (w : Bool) (a : Nat) (r : HTTPResponse)
    (ha : a ≤ rc + 1) (hr : resp a = .response r)
    (hnon : ¬(200 ≤ r.statusCode ∧ r.statusCode ≤ 299)) (hne : r.statusCode ≠ 429) :
    doGo rc resp cd w a = ⟨some (.api (respError r)), 1, []⟩ ∧
    ((r.errBody = .empty ∨ r.errBody = .readFails ∨ r.errBody = .invalidJSON) →
      respError r = ⟨r.statusCode, "", "", []⟩) ∧
    (∀ e, r.errBody = .json e → respError r = e) := by
  refine ⟨?_, ?_, ?_⟩
  · rw [doGo, if_pos ha, doAttempt_terminal rc resp cd w a r hr hnon hne]
  · rintro (hb | hb | hb) <;> simp [respError, hb]
  · intro e hb
    simp [respError, hb]

/-- Witness for `do_terminal_structured_error`: a 500 response with an
unparseable body on the first attempt. -/
theorem do_terminal_structured_error_witness :
    doGo 5 (fun _ => .response ⟨500, .invalidJSON, .decodesOK⟩) neverDone false 1 =
      ⟨some (.api (respError ⟨500, .invalidJSON, .decodesOK⟩)), 1, []⟩ ∧
    ((ErrBody.invalidJSON = .empty ∨ ErrBody.invalidJSON = .readFails ∨
        ErrBody.invalidJSON = .invalidJSON) →
      respError ⟨500, .invalidJSON, .decodesOK⟩ = ⟨500, "", "", []⟩) ∧
    (∀ e, ErrBody.invalidJSON = .json e → respError ⟨500, .invalidJSON, .decodesOK⟩ = e) :=
  do_terminal_structured_error 5 (fun _ => .response ⟨500, .invalidJSON, .decodesOK⟩)
    neverDone false 1 ⟨500, .invalidJSON, .decodesOK⟩ (by omega) rfl (by decide) (by decide)

/-- C8: a transport-level failure is never retried: the executor returns after
that single attempt, with the context's cancellation error when cancellation is
already signaled at that moment, and the raw transport error unchanged
otherwise. -/
theorem do_transport_failure_no_retry (rc : Nat) (resp : Nat → TransportResult)
    (cd : Nat → Bool) (w : Bool) (a : Nat) (rawErr : Nat)
    (ha : a ≤ rc + 1) (hf : resp a = .failure rawErr) :
    doGo rc resp cd w a =
      ⟨some (if cd a then .ctxCancelled else .transport rawErr), 1, []⟩ ∧
    (cd a = true → (doGo rc resp cd w a).result = some .ctxCancelled) ∧
    (cd a = false → (doGo rc resp cd w a).result = some (.transport rawErr)) := by
  have h1 : doGo rc resp cd w a =
      ⟨some (if cd a then .ctxCancelled else .transport rawErr), 1, []⟩ := by
    rw [doGo, if_pos ha, doAttempt_failure rc resp cd w a rawErr hf]
    cases hcd : cd a <;> simp [hcd]
  refine ⟨h1, ?_, ?_⟩ <;> intro hcd <;> rw [h1] <;> simp [hcd]

/-- Witness for `do_transport_failure_no_retry`: a transport failure on the
first attempt with cancellation already signaled. -/
theorem do_transport_failure_no_retry_witness :
    doGo 5 (fun _ => .failure 42) (fun _ => true) false 1 =
      ⟨some (if (fun _ : Nat => true) 1 then .ctxCancelled else .transport 42), 1, []⟩ ∧
    ((fun _ : Nat => true) 1 = true →
      (doGo 5 (fun _ => .failure 42) (fun _ => true) false 1).result = some .ctxCancelled) ∧
    ((fun _ : Nat => true) 1 = false →
      (doGo 5 (fun _ => .failure 42) (fun _ => true) false 1).result =
        some (.transport 42)) :=
  do_transport_failure_no_retry 5 (fun _ => .failure 42) (fun _ => true) false 1 42
    (by omega) rfl

/-- C10: when an attempt yields 429 and attempts remain, the executor performs
the full fixed 1000 ms backoff sleep and retries even when the caller's
context is already cancelled at that attempt; the cancellation is surfaced
only when the subsequent attempt's transport call fails. -/
theorem do_backoff_ignores_cancellation (rc : Nat) (resp : Nat → TransportResult)
    (cd : Nat → Bool) (w : Bool) (a : Nat) (r : HTTPResponse)
    (ha : a ≤ rc) (hr : resp a = .response r) (h429 : r.statusCode = 429)
    (hcancel : cd a = true) :
    doGo rc resp cd w a = afterSleep (doGo rc resp cd w (a + 1)) ∧
    (doGo rc resp cd w a).sleepsMs = 1000 :: (doGo rc resp cd w (a + 1)).sleepsMs ∧
    (∀ rawErr, resp (a + 1) = .failure rawErr → cd (a + 1) = true →
      (doGo rc resp cd w a).result = some .ctxCancelled ∧
      (doGo rc resp cd w a).attempts = 2) := by
  have h1 : doGo rc resp cd w a = afterSleep (doGo rc resp cd w (a + 1)) := by
    rw [doGo, if_pos (show a ≤ rc + 1 by omega),
      doAttempt_resp429 rc resp cd w a r hr h429, if_neg (show ¬rc + 1 ≤ a by omega)]
  refine ⟨h1, by rw [h1]; rfl, ?_⟩
  intro rawErr hf hcd
  have h3 : doGo rc resp cd w (a + 1) = ⟨some .ctxCancelled, 1, []⟩ := by
    rw [doGo, if_pos (show a + 1 ≤ rc + 1 by omega),
      doAttempt_failure rc resp cd w (a + 1) rawErr hf]
    simp [hcd]
  rw [h1, h3]
  exact ⟨rfl, rfl⟩

/-- Witness for `do_backoff_ignores_cancellation`: attempt 1 yields 429 with
the context already cancelled, attempt 2 fails at the transport level. -/
theorem do_backoff_ignores_cancellation_witness :
    doGo 5 (fun b => if b ≤ 1 then .response ⟨429, .empty, .decodesOK⟩ else .failure 3)
        (fun _ => true) false 1 =
      afterSleep (doGo 5
        (fun b => if b ≤ 1 then .response ⟨429, .empty, .decodesOK⟩ else .failure 3)
        (fun _ => true) false 2) ∧
    (doGo 5 (fun b => if b ≤ 1 then .response ⟨429, .empty, .decodesOK⟩ else .failure 3)
        (fun _ => true) false 1).sleepsMs =
      1000 :: (doGo 5
        (fun b => if b ≤ 1 then .response ⟨429, .empty, .decodesOK⟩ else .failure 3)
        (fun _ => true) false 2).sleepsMs ∧
    (∀ rawErr,
      (fun b => if b ≤ 1 then TransportResult.response ⟨429, .empty, .decodesOK⟩
        else .failure 3) 2 = .failure rawErr →
      (fun _ : Nat => true) 2 = true →
      (doGo 5 (fun b => if b ≤ 1 then .response ⟨429, .empty, .decodesOK⟩ else .failure 3)
          (fun _ => true) false 1).result = some .ctxCancelled ∧
      (doGo 5 (fun b => if b ≤ 1 then .response ⟨429, .empty, .decodesOK⟩ else .failure 3)
          (fun _ => true) false 1).attempts = 2) :=
  do_backoff_ignores_cancellation 5
    (fun b => if b ≤ 1 then .response ⟨429, .empty, .decodesOK⟩ else .failure 3)
    (fun _ => true) false 1 ⟨429, .empty, .decodesOK⟩ (by omega) rfl rfl rfl

/-! ## ScanFile sequencing -/

/-- C3: every run of `ScanFile` performs Initiate, Upload-All-Chunks, Finalize,
Trigger-Processing strictly in that order; each later step is invoked only if
every earlier step succeeded (in particular, a Finalize error means
Trigger-Processing is never invoked); the first failing step's error is the
overall result; and on full success the Trigger-Processing response is
returned unchanged. -/
theorem scanFile_sequencing :
    (∀ env : ScanFileEnv, (scanFile env).2 ∈
      [[UploadStep.initiate],
       [UploadStep.initiate, UploadStep.uploadChunks],
       [UploadStep.initiate, UploadStep.uploadChunks, UploadStep.finalize],
       [UploadStep.initiate, UploadStep.uploadChunks, UploadStep.finalize,
        UploadStep.triggerScan]]) ∧
    (∀ (env : ScanFileEnv) (e : DoError), env.initFileUpload = .error e →
      scanFile env = (.error e, [.initiate])) ∧
    (∀ (env : ScanFileEnv) (fu : FileUploadResponse) (e : DoError),
      env.initFileUpload = .ok fu → env.doChunkedUpload fu = some e →
      scanFile env = (.error e, [.initiate, .uploadChunks])) ∧
    (∀ (env : ScanFileEnv) (fu : FileUploadResponse) (e : DoError),
      env.initFileUpload = .ok fu → env.doChunkedUpload fu = none →
      env.completeFileUpload fu.id = some e →
      scanFile env = (.error e, [.initiate, .uploadChunks, .finalize]) ∧
      UploadStep.triggerScan ∉ (scanFile env).2) ∧
    (∀ (env : ScanFileEnv) (fu : FileUploadResponse),
      env.initFileUpload = .ok fu → env.doChunkedUpload fu = none →
      env.completeFileUpload fu.id = none →
      scanFile env = ((env.scanUploadedFile fu.id).map id,
        [.initiate, .uploadChunks, .finalize, .triggerScan])) ∧
    (∀ env : ScanFileEnv, UploadStep.triggerScan ∈ (scanFile env).2 →
      ∃ fu, env.initFileUpload = .ok fu ∧ env.doChunkedUpload fu = none ∧
        env.completeFileUpload fu.id = none) := by
  have hcases : ∀ env : ScanFileEnv,
      (∃ e, env.initFileUpload = .error e ∧ scanFile env = (.error e, [.initiate])) ∨
      (∃ fu, env.initFileUpload = .ok fu ∧
        ((∃ e, env.doChunkedUpload fu = some e ∧
            scanFile env = (.error e, [.initiate, .uploadChunks])) ∨
         (env.doChunkedUpload fu = none ∧
          ((∃ e, env.completeFileUpload fu.id = some e ∧
              scanFile env = (.error e, [.initiate, .uploadChunks, .finalize])) ∨
           (env.completeFileUpload fu.id = none ∧
            ((∃ e, env.scanUploadedFile fu.id = .error e ∧
                scanFile env = (.error e,
                  [.initiate, .uploadChunks, .finalize, .triggerScan])) ∨
             (∃ r, env.scanUploadedFile fu.id = .ok r ∧
                scanFile env = (.ok r,
                  [.initiate, .uploadChunks, .finalize, .triggerScan])))))))) := by
    intro env
    unfold scanFile
    cases hinit : env.initFileUpload with
    | error e => exact Or.inl ⟨e, rfl, rfl⟩
    | ok fu =>
      refine Or.inr ⟨fu, rfl, ?_⟩
      dsimp only
      cases hup : env.doChunkedUpload fu with
      | some e => exact Or.inl ⟨e, rfl, rfl⟩
      | none =>
        refine Or.inr ⟨rfl, ?_⟩
        dsimp only
        cases hcomp : env.completeFileUpload fu.id with
        | some e => exact Or.inl ⟨e, rfl, rfl⟩
        | none =>
          refine Or.inr ⟨rfl, ?_⟩
          dsimp only
          cases hscan : env.scanUploadedFile fu.id with
          | error e => exact Or.inl ⟨e, rfl, rfl⟩
          | ok r => exact Or.inr ⟨r, rfl, rfl⟩
  refine ⟨?_, ?_, ?_, ?_, ?_, ?_⟩
  · intro env
    rcases hcases env with ⟨e, _, hs⟩ | ⟨fu, _, ⟨e, _, hs⟩ | ⟨_, ⟨e, _, hs⟩ |
      ⟨_, ⟨e, _, hs⟩ | ⟨r, _, hs⟩⟩⟩⟩ <;> rw [hs] <;> simp
  · intro env e hinit
    unfold scanFile
    rw [hinit]
  · intro env fu e hinit hup
    unfold scanFile
    rw [hinit]
    dsimp only
    rw [hup]
  · intro env fu e hinit hup hcomp
    have hs : scanFile env = (.error e, [.initiate, .uploadChunks, .finalize]) := by
      unfold scanFile
      rw [hinit]
      dsimp only
      rw [hup]
      dsimp only
      rw [hcomp]
    refine ⟨hs, ?_⟩
    rw [hs]
    simp
  · intro env fu hinit hup hcomp
    unfold scanFile
    rw [hinit]
    dsimp only
    rw [hup]
    dsimp only
    rw [hcomp]
    dsimp only
    cases hscan : env.scanUploadedFile fu.id <;> simp [Except.map]
  · intro env htrig
    rcases hcases env with ⟨e, hinit, hs⟩ | ⟨fu, hinit, ⟨e, hup, hs⟩ | ⟨hup, ⟨e, hcomp, hs⟩ |
      ⟨hcomp, ⟨e, hscan, hs⟩ | ⟨r, hscan, hs⟩⟩⟩⟩ <;> rw [hs] at htrig <;> simp at htrig
    · exact ⟨fu, hinit, hup, hcomp⟩
    · exact ⟨fu, hinit, hup, hcomp⟩

/-- Witness for `scanFile_sequencing`: a run whose finalize step fails with
error id 0 never invokes the trigger step and surfaces that error. -/
theorem scanFile_sequencing_witness :
    scanFile ⟨.ok ⟨1, 15, 5, ""⟩, fun _ => none, fun _ => some (.transport 0),
        fun _ => .ok ⟨"x", "ok"⟩⟩ =
      (.error (.transport 0), [.initiate, .uploadChunks, .finalize]) ∧
    UploadStep.triggerScan ∉ (scanFile ⟨.ok ⟨1, 15, 5, ""⟩, fun _ => none,
        fun _ => some (.transport 0), fun _ => .ok ⟨"x", "ok"⟩⟩).2 :=
  scanFile_sequencing.2.2.2.1
    ⟨.ok ⟨1, 15, 5, ""⟩, fun _ => none, fun _ => some (.transport 0),
      fun _ => .ok ⟨"x", "ok"⟩⟩
    ⟨1, 15, 5, ""⟩ (.transport 0) rfl rfl rfl

/-! ## Orchestrator step shapes -/

theorem orchStep_exitLoop_shape (p : OrchParams) (s s' : OrchState)
    (h : orchStep p s .exitLoop = some s') :
    s.phase = .atTop ∧ p.fileSizeBytes ≤ s.offset ∧ s' = { s with phase := .waiting } := by
  simp only [orchStep] at h
  split at h
  · rename_i hc
    exact ⟨hc.1, hc.2, (Option.some.inj h).symm⟩
  · exact absurd h (by simp)

theorem orchStep_acquire_shape (p : OrchParams) (s s' : OrchState)
    (h : orchStep p s .acquire = some s') :
    s.phase = .atTop ∧ s.offset < p.fileSizeBytes ∧
    s.slotsUsed < p.fileUploadConcurrency ∧
    s' = { s with phase := .acquired, slotsUsed := s.slotsUsed + 1 } := by
  simp only [orchStep] at h
  split at h
  · rename_i hc
    exact ⟨hc.1, hc.2.1, hc.2.2, (Option.some.inj h).symm⟩
  · exact absurd h (by simp)

theorem orchStep_check_shape (p : OrchParams) (s s' : OrchState)
    (h : orchStep p s .check = some s') :
    s.phase = .acquired ∧
    s' = { s with phase := if s.cancelled then .waiting else .checked } := by
  simp only [orchStep] at h
  split at h
  · rename_i hc
    exact ⟨hc, (Option.some.inj h).symm⟩
  · exact absurd h (by simp)

theorem orchStep_read_shape (p : OrchParams) (s s' : OrchState)
    (h : orchStep p s .readDispatch = some s') :
    s.phase = .checked ∧
    ((∃ n, p.readResult s.reads = .bytesEOF n ∧
        s' = { s with phase := .waiting, reads := s.reads + 1,
                      bytesRead := s.bytesRead + min n p.chunkSize }) ∨
     (∃ e, p.readResult s.reads = .readErr e ∧
        s' = { s with phase := .readFailed e, reads := s.reads + 1 }) ∨
     (∃ n, p.readResult s.reads = .bytes n ∧
        s' = { s with phase := .atTop,
                      reads := s.reads + 1,
                      bytesRead := s.bytesRead + min n p.chunkSize,
                      running := ⟨s.dispatched, s.offset, min n p.chunkSize⟩ :: s.running,
                      dispatched := s.dispatched + 1,
                      offset := s.offset + p.chunkSize })) := by
  simp only [orchStep] at h
  split at h
  · rename_i hp
    refine ⟨hp, ?_⟩
    split at h
    · rename_i n hn
      exact Or.inl ⟨n, hn, (Option.some.inj h).symm⟩
    · rename_i e he
      exact Or.inr (Or.inl ⟨e, he, (Option.some.inj h).symm⟩)
    · rename_i n hn
      exact Or.inr (Or.inr ⟨n, hn, (Option.some.inj h).symm⟩)
  · exact absurd h (by simp)

theorem orchStep_finish_shape (p : OrchParams) (s s' : OrchState) (i : Nat)
    (h : orchStep p s (.finish i) = some s') :
    ∃ t, s.running.find? (fun u => u.idx = i) = some t ∧
      s' = { s with
        running := s.running.eraseP (fun u => u.idx = i),
        finished := t :: s.finished,
        slotsUsed := s.slotsUsed - 1,
        errSlot := match p.uploadOutcome i with
          | some e => (match s.errSlot with | none => some e | some e0 => some e0)
          | none => s.errSlot,
        cancelled := if (p.uploadOutcome i).isSome then true else s.cancelled,
        bytesUploaded :=
          if (p.uploadOutcome i).isSome then s.bytesUploaded
          else s.bytesUploaded + t.len } := by
  simp only [orchStep] at h
  split at h
  · exact absurd h (by simp)
  · rename_i t ht
    exact ⟨t, ht, (Option.some.inj h).symm⟩

theorem orchStep_wait_shape (p : OrchParams) (s s' : OrchState)
    (h : orchStep p s .finalizeWait = some s') :
    s.phase = .waiting ∧ s.running = [] ∧ s' = { s with phase := .done } := by
  simp only [orchStep] at h
  split at h
  · rename_i hc
    exact ⟨hc.1, hc.2, (Option.some.inj h).symm⟩
  · exact absurd h (by simp)

/-! ## Orchestrator invariants -/

theorem orchInit_inv (p : OrchParams) : OrchInv p orchInit := by
  unfold OrchInv orchInit phaseSlack
  refine ⟨by simp, by simp, by simp, ?_, by simp, by simp, ?_⟩
  · intro e he
    simp at he
  · intro hd
    simp at hd

theorem orchStep_inv (p : OrchParams) (s s' : OrchState) (l : OrchLabel)
    (h : orchStep p s l = some s') (hi : OrchInv p s) : OrchInv p s' := by
  obtain ⟨h1, h2, h3, h4, h5, h6, h7⟩ := hi
  cases l with
  | exitLoop =>
    obtain ⟨hp, -, rfl⟩ := orchStep_exitLoop_shape p s s' h
    rw [hp] at h2
    unfold OrchInv
    dsimp only [phaseSlack] at h2 ⊢
    refine ⟨h1, by omega, h3, h4, h5, h6, ?_⟩
    intro hd
    simp at hd
  | acquire =>
    obtain ⟨hp, -, hlt, rfl⟩ := orchStep_acquire_shape p s s' h
    rw [hp] at h2
    unfold OrchInv
    dsimp only [phaseSlack] at h2 ⊢
    refine ⟨by omega, by omega, h3, h4, h5, h6, ?_⟩
    intro hd
    simp at hd
  | check =>
    obtain ⟨hp, rfl⟩ := orchStep_check_shape p s s' h
    rw [hp] at h2
    have hs : phaseSlack (if s.cancelled then MainPhase.waiting else .checked) ≤ 1 := by
      cases s.cancelled <;> simp [phaseSlack]
    have hd : (if s.cancelled then MainPhase.waiting else .checked) ≠ .done := by
      cases s.cancelled <;> simp
    unfold OrchInv
    dsimp only [phaseSlack] at h2
    dsimp only
    exact ⟨h1, by omega, h3, h4, h5, h6, fun hdd => absurd hdd hd⟩
  | readDispatch =>
    obtain ⟨hp, hsub⟩ := orchStep_read_shape p s s' h
    rw [hp] at h2
    rcases hsub with ⟨n, -, rfl⟩ | ⟨e, -, rfl⟩ | ⟨n, -, rfl⟩
    · unfold OrchInv
      dsimp only [phaseSlack] at h2 ⊢
      refine ⟨h1, by omega, h3, h4, h5, h6, ?_⟩
      intro hd
      simp at hd
    · unfold OrchInv
      dsimp only [phaseSlack] at h2 ⊢
      refine ⟨h1, by omega, h3, h4, h5, h6, ?_⟩
      intro hd
      simp at hd
    · unfold OrchInv
      dsimp only [phaseSlack] at h2 ⊢
      refine ⟨h1, by simp; omega, by simp; omega, h4, ?_, ?_, ?_⟩
      · intro t ht
        simp only [List.mem_cons] at ht
        rcases ht with rfl | ht
        · dsimp only
          omega
        · have := h5 t ht
          omega
      · intro t ht
        have := h6 t ht
        omega
      · intro hd
        simp at hd
  | finish i =>
    obtain ⟨t, ht, rfl⟩ := orchStep_finish_shape p s s' i h
    have htmem : t ∈ s.running := List.mem_of_find?_eq_some ht
    have hpt := List.find?_some ht
    have htpred : t.idx = i := by simpa using hpt
    have hlen : (s.running.eraseP (fun u => u.idx = i)).length = s.running.length - 1 :=
      List.length_eraseP_of_mem htmem hpt
    have hpos : 0 < s.running.length := List.length_pos_of_mem htmem
    unfold OrchInv
    refine ⟨?_, ?_, ?_, ?_, ?_, ?_, ?_⟩
    · show s.slotsUsed - 1 ≤ p.fileUploadConcurrency
      omega
    · show (s.running.eraseP (fun u => u.idx = i)).length + phaseSlack s.phase ≤
        s.slotsUsed - 1
      rw [hlen]
      omega
    · show (s.running.eraseP (fun u => u.idx = i)).length + (t :: s.finished).length =
        s.dispatched
      rw [hlen]
      simp only [List.length_cons]
      omega
    · intro e
      show (match p.uploadOutcome i with
        | some e2 => (match s.errSlot with | none => some e2 | some e0 => some e0)
        | none => s.errSlot) = some e →
        ∃ u ∈ t :: s.finished, p.uploadOutcome u.idx = some e
      intro he
      cases ho : p.uploadOutcome i with
      | none =>
        rw [ho] at he
        obtain ⟨u, hu, huo⟩ := h4 e he
        exact ⟨u, List.mem_cons_of_mem t hu, huo⟩
      | some e2 =>
        rw [ho] at he
        cases hse : s.errSlot with
        | none =>
          rw [hse] at he
          obtain rfl : e2 = e := Option.some.inj he
          exact ⟨t, List.mem_cons_self t _, by rw [htpred]; exact ho⟩
        | some e0 =>
          rw [hse] at he
          obtain rfl : e0 = e := Option.some.inj he
          obtain ⟨u, hu, huo⟩ := h4 _ hse
          exact ⟨u, List.mem_cons_of_mem t hu, huo⟩
    · intro u hu
      exact h5 u ((s.running.eraseP_sublist).subset hu)
    · intro u hu
      replace hu : u ∈ t :: s.finished := hu
      rcases List.mem_cons.mp hu with rfl | hu
      · exact h5 u htmem
      · exact h6 u hu
    · intro hd
      replace hd : s.phase = .done := hd
      rw [h7 hd] at htmem
      simp at htmem
  | finalizeWait =>
    obtain ⟨hp, hrun, rfl⟩ := orchStep_wait_shape p s s' h
    rw [hp] at h2
    unfold OrchInv
    dsimp only [phaseSlack] at h2 ⊢
    exact ⟨h1, by omega, h3, h4, h5, h6, fun _ => hrun⟩

theorem orchRun_inv (p : OrchParams) (ls : List OrchLabel) (s s' : OrchState)
    (h : orchRun p s ls = some s') (hi : OrchInv p s) : OrchInv p s' := by
  induction ls generalizing s with
  | nil =>
    obtain rfl : s = s' := Option.some.inj h
    exact hi
  | cons l ls ih =>
    unfold orchRun at h
    cases hstep : orchStep p s l with
    | none =>
      rw [hstep] at h
      exact absurd h (by simp)
    | some s1 =>
      rw [hstep] at h
      exact ih s1 h (orchStep_inv p s s1 l hstep hi)

theorem orchReachable_inv (p : OrchParams) (s : OrchState)
    (h : OrchReachable p s) : OrchInv p s := by
  obtain ⟨ls, hls⟩ := h
  exact orchRun_inv p ls orchInit s hls (orchInit_inv p)

theorem orchStep_errSlot_mono (p : OrchParams) (s s' : OrchState) (l : OrchLabel) (e : Nat)
    (h : orchStep p s l = some s') (he : s.errSlot = some e) : s'.errSlot = some e := by
  cases l with
  | exitLoop =>
    obtain ⟨-, -, rfl⟩ := orchStep_exitLoop_shape p s s' h
    exact he
  | acquire =>
    obtain ⟨-, -, -, rfl⟩ := orchStep_acquire_shape p s s' h
    exact he
  | check =>
    obtain ⟨-, rfl⟩ := orchStep_check_shape p s s' h
    exact he
  | readDispatch =>
    obtain ⟨-, hsub⟩ := orchStep_read_shape p s s' h
    rcases hsub with ⟨n, -, rfl⟩ | ⟨e2, -, rfl⟩ | ⟨n, -, rfl⟩ <;> exact he
  | finish i =>
    obtain ⟨t, -, rfl⟩ := orchStep_finish_shape p s s' i h
    show (match p.uploadOutcome i with
      | some e2 => (match s.errSlot with | none => some e2 | some e0 => some e0)
      | none => s.errSlot) = some e
    rw [he]
    cases p.uploadOutcome i <;> rfl
  | finalizeWait =>
    obtain ⟨-, -, rfl⟩ := orchStep_wait_shape p s s' h
    exact he

theorem orchRun_errSlot_mono (p : OrchParams) (ls : List OrchLabel) (s s' : OrchState)
    (e : Nat) (h : orchRun p s ls = some s') (he : s.errSlot = some e) :
    s'.errSlot = some e := by
  induction ls generalizing s with
  | nil =>
    obtain rfl : s = s' := Option.some.inj h
    exact he
  | cons l ls ih =>
    unfold orchRun at h
    cases hstep : orchStep p s l with
    | none =>
      rw [hstep] at h
      exact absurd h (by simp)
    | some s1 =>
      rw [hstep] at h
      exact ih s1 h (orchStep_errSlot_mono p s s1 l e hstep he)

theorem orchStep_finish_records (p : OrchParams) (s s' : OrchState) (i : Nat)
    (h : orchStep p s (.finish i) = some s') :
    s'.errSlot = (match s.errSlot with
      | some e0 => some e0
      | none => p.uploadOutcome i) := by
  obtain ⟨t, -, rfl⟩ := orchStep_finish_shape p s s' i h
  show (match p.uploadOutcome i with
    | some e2 => (match s.errSlot with | none => some e2 | some e0 => some e0)
    | none => s.errSlot) = _
  cases p.uploadOutcome i <;> cases s.errSlot <;> rfl

theorem orchStep_frozen (p : OrchParams) (s s' : OrchState) (l : OrchLabel)
    (h : orchStep p s l = some s') (hf : OrchFrozen s) :
    OrchFrozen s' ∧ s'.dispatched = s.dispatched := by
  cases l with
  | exitLoop =>
    obtain ⟨hp, -, rfl⟩ := orchStep_exitLoop_shape p s s' h
    rcases hf with hw | hw | ⟨e, hw⟩ <;> rw [hp] at hw <;> simp at hw
  | acquire =>
    obtain ⟨hp, -, -, rfl⟩ := orchStep_acquire_shape p s s' h
    rcases hf with hw | hw | ⟨e, hw⟩ <;> rw [hp] at hw <;> simp at hw
  | check =>
    obtain ⟨hp, rfl⟩ := orchStep_check_shape p s s' h
    rcases hf with hw | hw | ⟨e, hw⟩ <;> rw [hp] at hw <;> simp at hw
  | readDispatch =>
    obtain ⟨hp, -⟩ := orchStep_read_shape p s s' h
    rcases hf with hw | hw | ⟨e, hw⟩ <;> rw [hp] at hw <;> simp at hw
  | finish i =>
    obtain ⟨t, -, rfl⟩ := orchStep_finish_shape p s s' i h
    exact ⟨hf, rfl⟩
  | finalizeWait =>
    obtain ⟨-, -, rfl⟩ := orchStep_wait_shape p s s' h
    exact ⟨Or.inr (Or.inl rfl), rfl⟩

theorem orchRun_frozen (p : OrchParams) (ls : List OrchLabel) (s s' : OrchState)
    (h : orchRun p s ls = some s') (hf : OrchFrozen s) :
    OrchFrozen s' ∧ s'.dispatched = s.dispatched := by
  induction ls generalizing s with
  | nil =>
    obtain rfl : s = s' := Option.some.inj h
    exact ⟨hf, rfl⟩
  | cons l ls ih =>
    unfold orchRun at h
    cases hstep : orchStep p s l with
    | none =>
      rw [hstep] at h
      exact absurd h (by simp)
    | some s1 =>
      rw [hstep] at h
      obtain ⟨hf1, hd1⟩ := orchStep_frozen p s s1 l hstep hf
      obtain ⟨hf2, hd2⟩ := ih s1 h hf1
      exact ⟨hf2, by omega⟩

theorem orchStep_check_detects (p : OrchParams) (s : OrchState)
    (hp : s.phase = .acquired) (hc : s.cancelled = true) :
    orchStep p s .check = some { s with phase := .waiting } := by
  simp only [orchStep]
  rw [if_pos hp, hc]
  rfl

theorem orchResult_done (s : OrchState) (hd : s.phase = .done) :
    orchResult s = some s.errSlot := by
  unfold orchResult
  rw [hd]

theorem orchRun_no_failure_success (p : OrchParams) (s : OrchState)
    (hr : OrchReachable p s) (hd : s.phase = .done)
    (hout : ∀ i, i < s.dispatched → p.uploadOutcome i = none) :
    orchResult s = some none := by
  obtain ⟨-, -, -, h4, -, h6, -⟩ := orchReachable_inv p s hr
  rw [orchResult_done s hd]
  cases hse : s.errSlot with
  | none => rfl
  | some e =>
    obtain ⟨u, hu, huo⟩ := h4 e hse
    rw [hout u.idx (h6 u hu)] at huo
    exact absurd huo (by simp)

/-- C4: in every run of the chunked upload orchestrator, at most one error is
reported: once an error is recorded nothing ever overwrites it (later errors
are discarded), a finishing chunk records its error only into an empty slot
(first-wins, regardless of offsets), any recorded error is the outcome of a
chunk upload that actually failed, once the dispatch loop has detected a
failure (the cancellation check breaks the loop) no further chunk is
dispatched, the run reaches a result only after every dispatched task has
finished and that result is the first recorded error, and a run with no chunk
failure reports success. -/
theorem chunked_upload_first_error_wins :
    (∀ (p : OrchParams) (s s' : OrchState) (l : OrchLabel) (e : Nat),
      orchStep p s l = some s' → s.errSlot = some e → s'.errSlot = some e) ∧
    (∀ (p : OrchParams) (s s' : OrchState) (i : Nat),
      orchStep p s (.finish i) = some s' →
      s'.errSlot = (match s.errSlot with
        | some e0 => some e0
        | none => p.uploadOutcome i)) ∧
    (∀ (p : OrchParams) (s : OrchState), OrchReachable p s → ∀ e, s.errSlot = some e →
      ∃ t ∈ s.finished, p.uploadOutcome t.idx = some e) ∧
    (∀ (p : OrchParams) (s : OrchState), OrchReachable p s → s.phase = .done →
      s.running = [] ∧ orchResult s = some s.errSlot) ∧
    (∀ (p : OrchParams) (s : OrchState), s.phase = .acquired → s.cancelled = true →
      orchStep p s .check = some { s with phase := .waiting }) ∧
    (∀ (p : OrchParams) (ls : List OrchLabel) (s s' : OrchState),
      OrchFrozen s → orchRun p s ls = some s' → s'.dispatched = s.dispatched) ∧
    (∀ (p : OrchParams) (s : OrchState), OrchReachable p s → s.phase = .done →
      (∀ i, i < s.dispatched → p.uploadOutcome i = none) → orchResult s = some none) := by
  refine ⟨orchStep_errSlot_mono, orchStep_finish_records, ?_, ?_, ?_, ?_,
    orchRun_no_failure_success⟩
  · intro p s hr e he
    obtain ⟨-, -, -, h4, -, -, -⟩ := orchReachable_inv p s hr
    exact h4 e he
  · intro p s hr hd
    obtain ⟨-, -, -, -, -, -, h7⟩ := orchReachable_inv p s hr
    exact ⟨h7 hd, orchResult_done s hd⟩
  · intro p s hp hc
    exact orchStep_check_detects p s hp hc
  · intro p ls s s' hf h
    exact (orchRun_frozen p ls s s' h hf).2

/-- Witness for `chunked_upload_first_error_wins`: the two-failure run of
`failParams` along `failTrace`: chunk 0's error 7 is recorded, chunk 1's
error 9 is discarded, the loop detects the cancellation, and the run reports
error 7 with all tasks finished. -/
theorem chunked_upload_first_error_wins_witness :
    ∃ t ∈ (OrchState.mk .done 10 2 2 [] [⟨1, 5, 5⟩, ⟨0, 0, 5⟩] 1 (some 7) true 10 0).finished,
      failParams.uploadOutcome t.idx = some 7 :=
  chunked_upload_first_error_wins.2.2.1 failParams
    ⟨.done, 10, 2, 2, [], [⟨1, 5, 5⟩, ⟨0, 0, 5⟩], 1, some 7, true, 10, 0⟩
    ⟨failTrace, by decide⟩ 7 rfl

/-- C5: at every reachable point of a chunked upload, the number of chunk
uploads in flight never exceeds the configured concurrency budget; a budget
unit is taken before each dispatch (the acquire step requires a free unit and
takes one) and released when a chunk's upload attempt finishes, success or
failure. -/
theorem chunked_upload_concurrency_budget :
    (∀ (p : OrchParams) (s : OrchState), OrchReachable p s →
      s.running.length ≤ s.slotsUsed ∧ s.slotsUsed ≤ p.fileUploadConcurrency) ∧
    (∀ (p : OrchParams) (s s' : OrchState), orchStep p s .acquire = some s' →
      s.slotsUsed < p.fileUploadConcurrency ∧ s'.slotsUsed = s.slotsUsed + 1) ∧
    (∀ (p : OrchParams) (s s' : OrchState) (i : Nat), orchStep p s (.finish i) = some s' →
      s'.slotsUsed = s.slotsUsed - 1 ∧ s'.running.length = s.running.length - 1) := by
  refine ⟨?_, ?_, ?_⟩
  · intro p s hr
    obtain ⟨h1, h2, -, -, -, -, -⟩ := orchReachable_inv p s hr
    exact ⟨by omega, h1⟩
  · intro p s s' h
    obtain ⟨-, -, hlt, rfl⟩ := orchStep_acquire_shape p s s' h
    exact ⟨hlt, rfl⟩
  · intro p s s' i h
    obtain ⟨t, ht, rfl⟩ := orchStep_finish_shape p s s' i h
    have htmem : t ∈ s.running := List.mem_of_find?_eq_some ht
    have hpt := List.find?_some ht
    exact ⟨rfl, List.length_eraseP_of_mem htmem hpt⟩

/-- Witness for `chunked_upload_concurrency_budget`: the final state of the
early-EOF run stays within the default budget of 1. -/
theorem chunked_upload_concurrency_budget_witness :
    (OrchState.mk .done 5 2 1 [] [⟨0, 0, 5⟩] 1 none false 5 5).running.length ≤
      (OrchState.mk .done 5 2 1 [] [⟨0, 0, 5⟩] 1 none false 5 5).slotsUsed ∧
    (OrchState.mk .done 5 2 1 [] [⟨0, 0, 5⟩] 1 none false 5 5).slotsUsed ≤
      eofParams.fileUploadConcurrency :=
  chunked_upload_concurrency_budget.1 eofParams
    ⟨.done, 5, 2, 1, [], [⟨0, 0, 5⟩], 1, none, false, 5, 5⟩ ⟨eofTrace, by decide⟩

/-- C9: when a `Read` reports end-of-data before the plan derived from the
session's total size is exhausted, the dispatch loop stops cleanly — no chunk
is dispatched by that step, no error is recorded, the loop moves to waiting —
and a terminating run whose dispatched chunks all succeeded returns success. -/
theorem chunked_upload_early_eof_tolerated :
    (∀ (p : OrchParams) (s s' : OrchState) (n : Nat),
      p.readResult s.reads = .bytesEOF n → orchStep p s .readDispatch = some s' →
      s'.phase = .waiting ∧ s'.dispatched = s.dispatched ∧
      s'.errSlot = s.errSlot ∧ s'.running = s.running) ∧
    (∀ (p : OrchParams) (s : OrchState), OrchReachable p s → s.phase = .done →
      (∀ i, i < s.dispatched → p.uploadOutcome i = none) →
      orchResult s = some none) := by
  refine ⟨?_, ?_⟩
  · intro p s s' n heof h
    obtain ⟨-, hsub⟩ := orchStep_read_shape p s s' h
    rcases hsub with ⟨n2, hn2, rfl⟩ | ⟨e2, hn2, rfl⟩ | ⟨n2, hn2, rfl⟩
    · exact ⟨rfl, rfl, rfl, rfl⟩
    · rw [heof] at hn2
      simp at hn2
    · rw [heof] at hn2
      simp at hn2
  · intro p s hr hd hout
    exact orchRun_no_failure_success p s hr hd hout

/-- Witness for `chunked_upload_early_eof_tolerated`: the early-EOF run of
`eofParams` along `eofTrace` terminates and reports success. -/
theorem chunked_upload_early_eof_tolerated_witness :
    orchResult (OrchState.mk .done 5 2 1 [] [⟨0, 0, 5⟩] 1 none false 5 5) = some none :=
  chunked_upload_early_eof_tolerated.2 eofParams
    ⟨.done, 5, 2, 1, [], [⟨0, 0, 5⟩], 1, none, false, 5, 5⟩
    ⟨eofTrace, by decide⟩ rfl (fun _ _ => rfl)

/-- C6 is violated by the code: the chunk loop of `doChunkedUpload` breaks on
`io.EOF` without processing the bytes returned alongside it (file.go:126-128),
although the `io.Reader` contract allows a reader to return its final bytes
together with `io.EOF`.  On a 5-byte upload whose single `Read` returns
`(5, io.EOF)`, the run reads 5 bytes, dispatches no chunk, uploads 0 bytes,
and still reports success; `ScanFile` then finalizes the empty upload and
returns overall success, a silent partial success. -/
theorem chunked_upload_silent_partial_success_bug :
    (orchRun ⟨5, 5, 1, fun _ => .bytesEOF 5, fun _ => none⟩ orchInit
        [.acquire, .check, .readDispatch, .finalizeWait]).map
        (fun s => (orchResult s, s.bytesRead, s.bytesUploaded, s.dispatched)) =
      some (some none, 5, 0, 0) ∧
    scanFile ⟨.ok ⟨1, 5, 5, ""⟩, fun _ => none, fun _ => none,
        fun _ => .ok ⟨"id", "ok"⟩⟩ =
      (.ok ⟨"id", "ok"⟩, [.initiate, .uploadChunks, .finalize, .triggerScan]) :=
  ⟨by decide, rfl⟩

end NightfallSDK
